import Mathlib

/-!
# Verification of the terragrunt scaffold pipeline and exit-code utilities

Shallow embedding of the Go sources:
* `util` (command exit-code recovery: `GetExitCode` and friends), and
* `scaffold` (the scaffolding pipeline: `Run`, `prepareBoilerplateFiles`,
  `parseVariables`, `parseModuleURL`, `rewriteModuleURL`, `rewriteTemplateURL`,
  `addRefToModuleURL`, `parseURL`).

Go's `net/url` query machinery (`url.Values` with `Get`/`Set`/`Add`/`Encode`
and `ParseQuery`) is embedded below.  A raw query string is modelled as the
ordered list of its `key=value` pairs (percent-escaping is irrelevant here: no
key or value manipulated by the code needs escaping).  `url.Values` is a Go map
from keys to value lists; since the map is unordered and `Encode` emits keys in
sorted order, we represent it canonically as an association list kept strictly
sorted by key, which makes `Encode` a plain flattening.
-/

/-- A raw query string, as the ordered list of its `key=value` pairs. -/
abbrev Query := List (String × String)

/-- Go's `url.Values`: a map from keys to lists of values, represented as an
association list strictly sorted by key (the canonical form of the unordered
Go map; `Encode` emits keys in sorted order). -/
abbrev Values := List (String × List String)

namespace Values

/-- `ParseQuery` adds one `key=value` pair: append the value to the key's list,
inserting a fresh key at its sorted position. -/
def addPair : Values → String → String → Values
  | [], k, v => [(k, [v])]
  | (k', vs) :: rest, k, v =>
    if k = k' then (k', vs ++ [v]) :: rest
    else if k < k' then (k, [v]) :: (k', vs) :: rest
    else (k', vs) :: addPair rest k v

/-- `url.ParseQuery` (as used by `URL.Query()`): fold the raw pairs into the map. -/
def parse (q : Query) : Values :=
  q.foldl (fun m kv => addPair m kv.1 kv.2) []

/-- The value list stored under a key (`[]` when the key is absent). -/
def valuesOf : Values → String → List String
  | [], _ => []
  | (k', vs) :: rest, k => if k' = k then vs else valuesOf rest k

/-- `url.Values.Get`: first value under the key, `""` when absent. -/
def get (m : Values) (k : String) : String :=
  (valuesOf m k).headD ""

/-- `url.Values.Set`: replace the key's values by the singleton list. -/
def set : Values → String → String → Values
  | [], k, v => [(k, [v])]
  | (k', vs) :: rest, k, v =>
    if k = k' then (k', [v]) :: rest
    else if k < k' then (k, [v]) :: (k', vs) :: rest
    else (k', vs) :: set rest k v

/-- `url.Values.Add`: append the value to the key's list. -/
def add (m : Values) (k v : String) : Values := addPair m k v

/-- `url.Values.Encode`: emit `key=value` pairs with keys in sorted order
(our representation is sorted, so this is a flattening). -/
def encode (m : Values) : Query :=
  m.flatMap (fun p => p.2.map (fun v => (p.1, v)))

/-- Whether the map carries the key. -/
def hasKey : Values → String → Bool
  | [], _ => false
  | (k', _) :: rest, k => if k' = k then true else hasKey rest k

/-- Representation invariant of the canonical form: keys strictly sorted and
every value list nonempty.  Every `Values` built by `parse`/`set`/`add` below
satisfies it. -/
def Canon (m : Values) : Prop :=
  m.Pairwise (fun a b => a.1 < b.1) ∧ ∀ p ∈ m, p.2 ≠ []

theorem Canon_nil : Canon [] := ⟨List.Pairwise.nil, by simp⟩

theorem Canon.tail {p : String × List String} {m : Values} (h : Canon (p :: m)) :
    Canon m := ⟨h.1.of_cons, fun q hq => h.2 q (List.mem_cons_of_mem _ hq)⟩

/-- Every element of `addPair tl k v` is an old element or carries key `k`. -/
theorem mem_addPair_of_mem {tl : Values} {k v : String} {b : String × List String}
    (hb : b ∈ addPair tl k v) : b ∈ tl ∨ b.1 = k := by
  induction tl with
  | nil => simp only [addPair, List.mem_singleton] at hb; right; rw [hb]
  | cons hd' tl' ih' =>
    rw [addPair] at hb
    by_cases h1 : k = hd'.1
    · simp only [if_pos h1] at hb
      rcases List.mem_cons.mp hb with he | he
      · right; rw [he]; exact h1.symm
      · left; exact List.mem_cons_of_mem _ he
    · by_cases h2 : k < hd'.1
      · simp only [if_neg h1, if_pos h2] at hb
        rcases List.mem_cons.mp hb with he | he
        · right; rw [he]
        · left; exact he
      · simp only [if_neg h1, if_neg h2] at hb
        rcases List.mem_cons.mp hb with he | he
        · left; rw [he]; simp
        · rcases ih' he with h3 | h3
          · left; exact List.mem_cons_of_mem _ h3
          · right; exact h3

theorem Canon_addPair {m : Values} (h : Canon m) (k v : String) :
    Canon (addPair m k v) := by
  induction m with
  | nil =>
    exact ⟨List.pairwise_singleton _ _, by simp [addPair]⟩
  | cons hd tl ih =>
    obtain ⟨hp, hne⟩ := h
    by_cases hk : k = hd.1
    · refine ⟨?_, ?_⟩
      · simpa [addPair, hk] using (List.pairwise_cons.mp hp)
      · intro p hp'
        simp only [addPair, hk, if_pos rfl] at hp'
        rcases List.mem_cons.mp hp' with h1 | h2
        · subst h1; simp
        · exact hne p (List.mem_cons_of_mem _ h2)
    · by_cases hlt : k < hd.1
      · refine ⟨?_, ?_⟩
        · rw [addPair]
          simp only [if_neg hk, if_pos hlt]
          refine List.pairwise_cons.mpr ⟨?_, hp⟩
          intro b hb
          rcases List.mem_cons.mp hb with h1 | h2
          · subst h1; exact hlt
          · exact lt_trans hlt ((List.pairwise_cons.mp hp).1 b h2)
        · intro p hp'
          rw [addPair] at hp'
          simp only [if_neg hk, if_pos hlt] at hp'
          rcases List.mem_cons.mp hp' with h1 | h2
          · subst h1; simp
          · exact hne p h2
      · have hgt : hd.1 < k := by
          rcases lt_trichotomy k hd.1 with h1 | h1 | h1
          · exact absurd h1 hlt
          · exact absurd h1 hk
          · exact h1
        have htl : Canon tl := ⟨hp.of_cons, fun q hq => hne q (List.mem_cons_of_mem _ hq)⟩
        obtain ⟨ihp, ihne⟩ := ih htl
        refine ⟨?_, ?_⟩
        · rw [addPair]
          simp only [if_neg hk, if_neg hlt]
          refine List.pairwise_cons.mpr ⟨?_, ihp⟩
          intro b hb
          rcases mem_addPair_of_mem hb with h1 | h1
          · exact (List.pairwise_cons.mp hp).1 b h1
          · rw [h1]; exact hgt
        · intro p hp'
          rw [addPair] at hp'
          simp only [if_neg hk, if_neg hlt] at hp'
          rcases List.mem_cons.mp hp' with h1 | h2
          · subst h1; exact hne hd (by simp)
          · exact ihne p h2

/-- Every element of `set tl k v` is an old element or carries key `k`. -/
theorem mem_set_of_mem {tl : Values} {k v : String} {b : String × List String}
    (hb : b ∈ set tl k v) : b ∈ tl ∨ b.1 = k := by
  induction tl with
  | nil => simp only [set, List.mem_singleton] at hb; right; rw [hb]
  | cons hd' tl' ih' =>
    rw [set] at hb
    by_cases h1 : k = hd'.1
    · simp only [if_pos h1] at hb
      rcases List.mem_cons.mp hb with he | he
      · right; rw [he]; exact h1.symm
      · left; exact List.mem_cons_of_mem _ he
    · by_cases h2 : k < hd'.1
      · simp only [if_neg h1, if_pos h2] at hb
        rcases List.mem_cons.mp hb with he | he
        · right; rw [he]
        · left; exact he
      · simp only [if_neg h1, if_neg h2] at hb
        rcases List.mem_cons.mp hb with he | he
        · left; rw [he]; simp
        · rcases ih' he with h3 | h3
          · left; exact List.mem_cons_of_mem _ h3
          · right; exact h3

theorem Canon_set {m : Values} (h : Canon m) (k v : String) :
    Canon (set m k v) := by
  induction m with
  | nil => exact ⟨List.pairwise_singleton _ _, by simp [set]⟩
  | cons hd tl ih =>
    obtain ⟨hp, hne⟩ := h
    by_cases hk : k = hd.1
    · refine ⟨?_, ?_⟩
      · simpa [set, hk] using (List.pairwise_cons.mp hp)
      · intro p hp'
        simp only [set, hk, if_pos rfl] at hp'
        rcases List.mem_cons.mp hp' with h1 | h2
        · subst h1; simp
        · exact hne p (List.mem_cons_of_mem _ h2)
    · by_cases hlt : k < hd.1
      · refine ⟨?_, ?_⟩
        · rw [set]
          simp only [if_neg hk, if_pos hlt]
          refine List.pairwise_cons.mpr ⟨?_, hp⟩
          intro b hb
          rcases List.mem_cons.mp hb with h1 | h2
          · subst h1; exact hlt
          · exact lt_trans hlt ((List.pairwise_cons.mp hp).1 b h2)
        · intro p hp'
          rw [set] at hp'
          simp only [if_neg hk, if_pos hlt] at hp'
          rcases List.mem_cons.mp hp' with h1 | h2
          · subst h1; simp
          · exact hne p h2
      · have hgt : hd.1 < k := by
          rcases lt_trichotomy k hd.1 with h1 | h1 | h1
          · exact absurd h1 hlt
          · exact absurd h1 hk
          · exact h1
        have htl : Canon tl := ⟨hp.of_cons, fun q hq => hne q (List.mem_cons_of_mem _ hq)⟩
        obtain ⟨ihp, ihne⟩ := ih htl
        refine ⟨?_, ?_⟩
        · rw [set]
          simp only [if_neg hk, if_neg hlt]
          refine List.pairwise_cons.mpr ⟨?_, ihp⟩
          intro b hb
          rcases mem_set_of_mem hb with h1 | h1
          · exact (List.pairwise_cons.mp hp).1 b h1
          · rw [h1]; exact hgt
        · intro p hp'
          rw [set] at hp'
          simp only [if_neg hk, if_neg hlt] at hp'
          rcases List.mem_cons.mp hp' with h1 | h2
          · subst h1; exact hne hd (by simp)
          · exact ihne p h2

/-- Folding query pairs into an accumulator map (the body of `parse`). -/
def parseFrom (m : Values) (q : Query) : Values :=
  q.foldl (fun m kv => addPair m kv.1 kv.2) m

theorem parse_eq_parseFrom (q : Query) : parse q = parseFrom [] q := rfl

theorem parseFrom_append (m : Values) (q₁ q₂ : Query) :
    parseFrom m (q₁ ++ q₂) = parseFrom (parseFrom m q₁) q₂ := by
  unfold parseFrom
  exact List.foldl_append _ _ _ _

theorem Canon_parseFrom {m : Values} (h : Canon m) (q : Query) :
    Canon (parseFrom m q) := by
  induction q generalizing m with
  | nil => exact h
  | cons kv q ih => exact ih (Canon_addPair h kv.1 kv.2)

theorem Canon_parse (q : Query) : Canon (parse q) :=
  Canon_parseFrom Canon_nil q

theorem valuesOf_eq_nil_of_not_hasKey {m : Values} {k : String}
    (h : hasKey m k = false) : valuesOf m k = [] := by
  induction m with
  | nil => rfl
  | cons hd tl ih =>
    obtain ⟨k', vs⟩ := hd
    rw [hasKey] at h
    by_cases hk : k' = k
    · rw [if_pos hk] at h; exact absurd h (by simp)
    · rw [if_neg hk] at h
      rw [valuesOf, if_neg hk]
      exact ih h

theorem get_eq_nil_of_not_hasKey {m : Values} {k : String}
    (h : hasKey m k = false) : get m k = "" := by
  rw [get, valuesOf_eq_nil_of_not_hasKey h]; rfl

theorem valuesOf_set_self (m : Values) (k v : String) :
    valuesOf (set m k v) k = [v] := by
  induction m with
  | nil => simp [set, valuesOf]
  | cons hd tl ih =>
    obtain ⟨k', vs⟩ := hd
    rw [set]
    by_cases hk : k = k'
    · rw [if_pos hk, valuesOf, if_pos hk.symm]
    · rw [if_neg hk]
      by_cases hlt : k < k'
      · rw [if_pos hlt, valuesOf, if_pos rfl]
      · rw [if_neg hlt, valuesOf, if_neg (fun he => hk he.symm)]
        exact ih

theorem valuesOf_eq_nil_of_keys_ne {m : Values} {k : String}
    (h : ∀ p ∈ m, p.1 ≠ k) : valuesOf m k = [] := by
  induction m with
  | nil => rfl
  | cons hd tl ih =>
    obtain ⟨k', vs⟩ := hd
    rw [valuesOf, if_neg (h (k', vs) (by simp))]
    exact ih (fun p hp => h p (List.mem_cons_of_mem _ hp))

theorem valuesOf_addPair_self {m : Values} (h : Canon m) (k v : String) :
    valuesOf (addPair m k v) k = valuesOf m k ++ [v] := by
  induction m with
  | nil => simp [addPair, valuesOf]
  | cons hd tl ih =>
    obtain ⟨k', vs⟩ := hd
    rw [addPair]
    by_cases hk : k = k'
    · rw [if_pos hk, valuesOf, if_pos hk.symm, valuesOf, if_pos hk.symm]
    · rw [if_neg hk]
      by_cases hlt : k < k'
      · rw [if_pos hlt, valuesOf, if_pos rfl, valuesOf, if_neg (fun he => hk he.symm)]
        have htl : valuesOf tl k = [] := by
          refine valuesOf_eq_nil_of_keys_ne ?_
          intro p hp he
          have := (List.pairwise_cons.mp h.1).1 p hp
          rw [he] at this
          exact absurd (lt_trans hlt this) (lt_irrefl _)
        rw [htl]
        rfl
      · rw [if_neg hlt, valuesOf, if_neg (fun he => hk he.symm),
          valuesOf, if_neg (fun he => hk he.symm)]
        exact ih h.tail

theorem get_set_self (m : Values) (k v : String) :
    get (set m k v) k = v := by
  rw [get, valuesOf_set_self]; rfl

theorem set_set (m : Values) (k v w : String) :
    set (set m k v) k w = set m k w := by
  induction m with
  | nil => simp [set]
  | cons hd tl ih =>
    obtain ⟨k', vs⟩ := hd
    rw [set]
    by_cases hk : k = k'
    · rw [if_pos hk, set, if_pos hk, set, if_pos hk]
    · rw [if_neg hk]
      by_cases hlt : k < k'
      · rw [if_pos hlt, set, if_pos rfl, set, if_neg hk, if_pos hlt]
      · rw [if_neg hlt, set, if_neg hk, if_neg hlt, set, if_neg hk, if_neg hlt, ih]

theorem set_addPair (m : Values) (k v w : String) :
    set (addPair m k v) k w = set m k w := by
  induction m with
  | nil => simp [addPair, set]
  | cons hd tl ih =>
    obtain ⟨k', vs⟩ := hd
    rw [addPair]
    by_cases hk : k = k'
    · rw [if_pos hk, set, if_pos hk, set, if_pos hk]
    · rw [if_neg hk]
      by_cases hlt : k < k'
      · rw [if_pos hlt, set, if_pos rfl, set, if_neg hk, if_pos hlt]
      · rw [if_neg hlt, set, if_neg hk, if_neg hlt, set, if_neg hk, if_neg hlt, ih]

/-- `addPair` with a key greater than every key in the map appends a fresh entry. -/
theorem addPair_gt {m : Values} {k : String} (h : ∀ p ∈ m, p.1 < k) (v : String) :
    addPair m k v = m ++ [(k, [v])] := by
  induction m with
  | nil => rfl
  | cons hd tl ih =>
    have hlt : hd.1 < k := h hd (by simp)
    rw [addPair, if_neg (by exact fun he => absurd (he ▸ hlt) (lt_irrefl _)),
      if_neg (by exact fun he => absurd (lt_trans he hlt) (lt_irrefl _))]
    rw [ih (fun p hp => h p (List.mem_cons_of_mem _ hp))]
    rfl

/-- `addPair` on a map ending in the key appends to the final value list. -/
theorem addPair_last {m : Values} {k : String} (h : ∀ p ∈ m, p.1 < k)
    (acc : List String) (v : String) :
    addPair (m ++ [(k, acc)]) k v = m ++ [(k, acc ++ [v])] := by
  induction m with
  | nil => simp [addPair]
  | cons hd tl ih =>
    have hlt : hd.1 < k := h hd (by simp)
    rw [List.cons_append, addPair,
      if_neg (by exact fun he => absurd (he ▸ hlt) (lt_irrefl _)),
      if_neg (by exact fun he => absurd (lt_trans he hlt) (lt_irrefl _))]
    rw [ih (fun p hp => h p (List.mem_cons_of_mem _ hp))]
    rfl

theorem parseFrom_pairs {m : Values} {k : String} (h : ∀ p ∈ m, p.1 < k)
    (acc : List String) (vs : List String) :
    parseFrom (m ++ [(k, acc)]) (vs.map (fun v => (k, v))) = m ++ [(k, acc ++ vs)] := by
  induction vs generalizing acc with
  | nil => simp [parseFrom]
  | cons v vs ih =>
    simp only [List.map_cons, parseFrom, List.foldl_cons]
    rw [show (addPair (m ++ [(k, acc)]) k v) = m ++ [(k, acc ++ [v])] from addPair_last h acc v]
    have := ih (acc ++ [v])
    simp only [parseFrom] at this
    rw [this, List.append_assoc]
    simp

/-- Key fact: parsing the encoding of a canonical map recovers it exactly.
This mirrors Go, where `URL.Query()` after `RawQuery = params.Encode()` yields
the same logical map. -/
theorem parseFrom_encode (m₀ m : Values) (h : Canon (m₀ ++ m)) :
    parseFrom m₀ (encode m) = m₀ ++ m := by
  induction m generalizing m₀ with
  | nil => simp [parseFrom, encode]
  | cons hd tl ih =>
    obtain ⟨k, vs⟩ := hd
    have hvs : vs ≠ [] := h.2 (k, vs) (by simp)
    have hkeys : ∀ p ∈ m₀, p.1 < k := by
      intro p hp
      exact (List.pairwise_append.mp h.1).2.2 p hp (k, vs) (by simp)
    match vs, hvs with
    | v₀ :: vs', _ =>
      rw [show encode ((k, v₀ :: vs') :: tl)
          = ((v₀ :: vs').map (fun v => (k, v))) ++ encode tl by simp [encode]]
      rw [parseFrom_append]
      have step1 : parseFrom m₀ ((v₀ :: vs').map (fun v => (k, v)))
          = m₀ ++ [(k, v₀ :: vs')] := by
        simp only [List.map_cons, parseFrom, List.foldl_cons]
        rw [show addPair m₀ k v₀ = m₀ ++ [(k, [v₀])] from addPair_gt hkeys v₀]
        have := parseFrom_pairs hkeys [v₀] vs'
        simpa [parseFrom] using this
      rw [step1]
      have hassoc : (m₀ ++ [(k, v₀ :: vs')]) ++ tl = m₀ ++ (k, v₀ :: vs') :: tl := by
        simp
      rw [ih (m₀ ++ [(k, v₀ :: vs')]) (by rw [hassoc]; exact h)]
      rw [hassoc]

theorem parse_encode {m : Values} (h : Canon m) : parse (encode m) = m := by
  have := parseFrom_encode [] m (by simpa using h)
  simpa [parse_eq_parseFrom] using this

/-- Number of pairs under a key in a raw query. -/
def countKey : Query → String → Nat
  | [], _ => 0
  | (k', _) :: rest, k => (if k' = k then 1 else 0) + countKey rest k

theorem countKey_append (q₁ q₂ : Query) (k : String) :
    countKey (q₁ ++ q₂) k = countKey q₁ k + countKey q₂ k := by
  induction q₁ with
  | nil => simp [countKey]
  | cons hd tl ih =>
    obtain ⟨k', v⟩ := hd
    rw [List.cons_append, countKey, countKey, ih, Nat.add_assoc]

theorem countKey_pairs (k' : String) (vs : List String) (k : String) :
    countKey (vs.map (fun v => (k', v))) k = if k' = k then vs.length else 0 := by
  induction vs with
  | nil => simp [countKey]
  | cons v vs ih =>
    rw [List.map_cons, countKey, ih]
    by_cases hk : k' = k
    · simp only [if_pos hk, List.length_cons]
      omega
    · simp only [if_neg hk]

theorem countKey_encode {m : Values} (h : Canon m) (k : String) :
    countKey (encode m) k = (valuesOf m k).length := by
  induction m with
  | nil => rfl
  | cons hd tl ih =>
    obtain ⟨k', vs⟩ := hd
    rw [show encode ((k', vs) :: tl) = (vs.map (fun v => (k', v))) ++ encode tl by
      simp [encode]]
    rw [countKey_append, countKey_pairs, ih h.tail, valuesOf]
    by_cases hk : k' = k
    · rw [if_pos hk, if_pos hk]
      have hzero : valuesOf tl k = [] := by
        refine valuesOf_eq_nil_of_keys_ne ?_
        intro p hp he
        have := (List.pairwise_cons.mp h.1).1 p hp
        rw [he, ← hk] at this
        exact absurd this (lt_irrefl _)
      rw [hzero]
      simp
    · rw [if_neg hk, if_neg hk]
      omega

end Values

/-! ## URLs

The scaffold code manipulates `*url.URL` values produced by
`terraform.ToSourceURL` (go-getter source-URL normalization).  `ToSourceURL`
itself is repository code that is not under `src/`, so it is modelled from the
spec below; everything else in this section is translated from
`src/unnamed/part_000`. -/

/-- Error values surfaced by the scaffold pipeline.  `external n` stands for a
collaborator failure (fetcher, renderer, ...) injected through an oracle. -/
inductive ScaffoldErr where
  | invalidSourceURL
  | noModuleURLPassed
  | external (n : Nat)
deriving DecidableEq, Repr

/-- A structured source URL (Go's `url.URL` as produced and consumed by the
scaffold code).  `scheme` carries the forced-getter chain the way terragrunt
stores it (e.g. `"git::https"`); `scpLike` marks `user@host:path`-style URLs,
whose `String()` form has no `://`. -/
structure URL where
  scheme : String
  scpLike : Bool
  user : String
  host : String
  path : String
  rawQuery : Query
deriving DecidableEq, Repr

/-- Render a query as the text after `?`. -/
def renderQuery : Query → String
  | [] => ""
  | [(k, v)] => k ++ "=" ++ v
  | (k, v) :: rest => k ++ "=" ++ v ++ "&" ++ renderQuery rest

/-- `url.URL.String()`. -/
def urlString (u : URL) : String :=
  let qs := if u.rawQuery.isEmpty then "" else "?" ++ renderQuery u.rawQuery
  let userPart := if u.user = "" then "" else u.user ++ "@"
  if u.scpLike then u.scheme ++ userPart ++ u.host ++ ":" ++ u.path ++ qs
  else u.scheme ++ "://" ++ userPart ++ u.host ++ u.path ++ qs

/-- Split a leading forced-getter marker (`git::`, `hg::`, `s3::`, `gcs::`). -/
def forcedGetterSplit : List Char → Option (String × List Char)
  | 'g' :: 'i' :: 't' :: ':' :: ':' :: r => some ("git::", r)
  | 'h' :: 'g' :: ':' :: ':' :: r => some ("hg::", r)
  | 's' :: '3' :: ':' :: ':' :: r => some ("s3::", r)
  | 'g' :: 'c' :: 's' :: ':' :: ':' :: r => some ("gcs::", r)
  | _ => none

/-- Split a character list at the first `://`, if any. -/
def splitSchemeSep : List Char → Option (List Char × List Char)
  | [] => none
  | ':' :: '/' :: '/' :: rest => some ([], rest)
  | c :: rest =>
    match splitSchemeSep rest with
    | some (a, b) => some (c :: a, b)
    | none => none

/-- Split a character list on `&`. -/
def splitOnAmp : List Char → List (List Char)
  | [] => [[]]
  | '&' :: rest => [] :: splitOnAmp rest
  | c :: rest =>
    match splitOnAmp rest with
    | seg :: segs => (c :: seg) :: segs
    | [] => [[c]]

/-- One `key=value` query segment (no `=` means an empty value, as in Go). -/
def pairOfSegment (seg : List Char) : String × String :=
  let kv := seg.span (fun c => c ≠ '=')
  match kv.2 with
  | _ :: v => (String.mk kv.1, String.mk v)
  | [] => (String.mk kv.1, "")

/-- `url.ParseQuery` on the raw text after `?` (empty segments are skipped). -/
def parseQueryChars (cs : List Char) : Query :=
  ((splitOnAmp cs).filter (fun seg => ¬ seg.isEmpty)).map pairOfSegment

/-- Modelled from the spec: `terraform.ToSourceURL` (repository code not under
`src/`) "normalizes the raw module location into a structured URL using
source-fetcher URL conventions (fails with `InvalidSourceURL` if normalization
fails upstream)".  It recognizes an optional `<vcs>::` forced-getter marker
followed by either a `scheme://[user@]host/path?query` URL (the getter marker
is folded into the scheme, as terragrunt does) or an scp-style
`user@host:path?query` source, and fails on anything else. -/
def toSourceURL (raw : String) : Except ScaffoldErr URL :=
  let cs := raw.toList
  let gRest :=
    match forcedGetterSplit cs with
    | some gr => gr
    | none => ("", cs)
  let g := gRest.1
  let rest := gRest.2
  match splitSchemeSep rest with
  | some (schemeCs, after) =>
    if schemeCs.isEmpty || schemeCs.any (fun c => c = ':' || c = '/') then
      .error .invalidSourceURL
    else
      let bq := after.span (fun c => c ≠ '?')
      let q := match bq.2 with
        | _ :: qcs => parseQueryChars qcs
        | [] => []
      let preAt := bq.1.span (fun c => c ≠ '@' && c ≠ '/')
      let userHostPath :=
        match preAt.2 with
        | '@' :: r => (String.mk preAt.1, r)
        | _ => ("", bq.1)
      let hostPath := userHostPath.2.span (fun c => c ≠ '/')
      if hostPath.1.isEmpty then .error .invalidSourceURL
      else .ok { scheme := g ++ String.mk schemeCs, scpLike := false,
                 user := userHostPath.1, host := String.mk hostPath.1,
                 path := String.mk hostPath.2, rawQuery := q }
  | none =>
    let userAt := rest.span (fun c => c ≠ '@')
    match userAt.2 with
    | '@' :: r =>
      if userAt.1.isEmpty || userAt.1.any (fun c => c = '/' || c = ':') then
        .error .invalidSourceURL
      else
        let hostColon := r.span (fun c => c ≠ ':' && c ≠ '/')
        match hostColon.2 with
        | ':' :: pcs =>
          if hostColon.1.isEmpty then .error .invalidSourceURL
          else
            let pq := pcs.span (fun c => c ≠ '?')
            let q := match pq.2 with
              | _ :: qcs => parseQueryChars qcs
              | [] => []
            if pq.1.isEmpty then .error .invalidSourceURL
            else .ok { scheme := g, scpLike := true, user := String.mk userAt.1,
                       host := String.mk hostColon.1, path := String.mk pq.1,
                       rawQuery := q }
        | _ => .error .invalidSourceURL
    | _ => .error .invalidSourceURL

/-- The result of the `moduleURLRegex` match (`type parsedURL struct`). -/
structure parsedURL where
  scheme : String
  host : String
  path : String
deriving DecidableEq, Repr

/-- Try to match `(?:git|hg|s3|gcs)::([^:]+)://([^/]+)(/.*)` at the start of
the character list.  The character classes are colon-free / slash-free, so the
greedy groups are the spans up to the next `:` resp. `/`; `.` stops at a
newline, as in Go. -/
def matchModuleURLAt (cs : List Char) : Option parsedURL :=
  match forcedGetterSplit cs with
  | none => none
  | some (_, rest) =>
    let sr := rest.span (fun c => c ≠ ':')
    match sr.1, sr.2 with
    | _ :: _, ':' :: '/' :: '/' :: r2 =>
      let hr := r2.span (fun c => c ≠ '/')
      match hr.1, hr.2 with
      | _ :: _, '/' :: r4 =>
        some { scheme := String.mk sr.1, host := String.mk hr.1,
               path := String.mk ('/' :: r4.takeWhile (fun c => c ≠ '\n')) }
      | _, _ => none
    | _, _ => none

/-- Leftmost match of the module-URL pattern (Go `FindStringSubmatch` scans
left to right). -/
def findModuleURL : List Char → Option parsedURL
  | [] => none
  | c :: rest =>
    match matchModuleURLAt (c :: rest) with
    | some r => some r
    | none => findModuleURL rest

/-- `parseURL` — parses module url to scheme, host and path via
`moduleURLRegex`; `none` models the `failedToParseURLError` result. -/
def parseURL (moduleURL : String) : Option parsedURL :=
  findModuleURL moduleURL.toList

/-- Drop everything from the first `//` of a path (the module subpath). -/
def dropModuleSubpath : List Char → List Char
  | [] => []
  | '/' :: '/' :: _ => []
  | c :: rest => c :: dropModuleSubpath rest

/-- Modelled from the spec: `terraform.SplitSourceURL` (repository code not
under `src/`) yields the repository root the tag lookup is queried with —
"the URL's root (scheme+host+first path segment, stripped of any module
subpath)".  The root carries no query. -/
def splitSourceURL (u : URL) : URL :=
  { u with path := String.mk (dropModuleSubpath u.path.toList), rawQuery := [] }

/-- The scaffold variable map (`map[string]interface{}`), restricted to the
three keys the URL pipeline reads: `SourceUrlType`, `SourceGitSshUser`, `Ref`.
`none` models key absence; values are already strings (the code stringifies
with `fmt.Sprintf`). -/
structure Vars where
  sourceUrlType : Option String := none
  sourceGitSshUser : Option String := none
  ref : Option String := none
deriving DecidableEq, Repr

def sourceURLTypeHTTPS : String := "git-https"

def sourceURLTypeGit : String := "git-ssh"

def sourceGitSSHUser : String := "git"

/-- `refParam` — the `?ref` param from the url. -/
def refParam : String := "ref"

/-! ## The scaffold URL functions (translated from `src/unnamed/part_000`) -/

/-- `addRefToModuleURL` adds a ref to the module url if one is passed through
variables or found from git tags.  `shell.GitLastReleaseTag` is the
collaborator `gitTag` (`.error` = lookup failure).  `terraform.SplitSourceURL`
is modelled total (see `splitSourceURL`), so the Go error result is always
nil and the embedding returns the URL directly. -/
def addRefToModuleURL (gitTag : URL → Except Unit String) (parsedModuleURL : URL)
    (vars : Vars) : URL :=
  let params := Values.parse parsedModuleURL.rawQuery
  let pm :=
    match vars.ref with
    | some refReplacement =>
      (Values.set params refParam refReplacement,
        { parsedModuleURL with
            rawQuery := Values.encode (Values.set params refParam refReplacement) })
    | none => (params, parsedModuleURL)
  let params := pm.1
  let moduleURL := pm.2
  let ref := Values.get params refParam
  if ref = "" then
    match gitTag (splitSourceURL moduleURL) with
    | .error _ => moduleURL
    | .ok tag =>
      if tag = "" then moduleURL
      else { moduleURL with rawQuery := Values.encode (Values.add params refParam tag) }
  else moduleURL

/-- `rewriteTemplateURL` rewrites the template url with a reference to a tag
(found from git tags only; it reads no variables). -/
def rewriteTemplateURL (gitTag : URL → Except Unit String)
    (parsedTemplateURL : URL) : URL :=
  let templateParams := Values.parse parsedTemplateURL.rawQuery
  let ref := Values.get templateParams refParam
  if ref = "" then
    match gitTag (splitSourceURL parsedTemplateURL) with
    | .error _ => parsedTemplateURL
    | .ok tag =>
      if tag = "" then parsedTemplateURL
      else { parsedTemplateURL with
               rawQuery := Values.encode (Values.add templateParams refParam tag) }
  else parsedTemplateURL

/-- `strings.TrimPrefix(path, "/")`. -/
def dropOneLeadingSlash (s : String) : String :=
  match s.toList with
  | '/' :: rest => String.mk rest
  | _ => s

/-- The effective `sourceURLType` (defaults to `git-https`). -/
def sourceURLTypeOf (vars : Vars) : String :=
  match vars.sourceUrlType with
  | some value => value
  | none => sourceURLTypeHTTPS

/-- The effective SSH user (defaults to `git`). -/
def gitSSHUserOf (vars : Vars) : String :=
  match vars.sourceGitSshUser with
  | some value => value
  | none => sourceGitSSHUser

/-- The `<user>@<host>:<path>` string built by the transport-rewrite branch. -/
def sshRewrite (vars : Vars) (parsedValue : parsedURL) : String :=
  gitSSHUserOf vars ++ "@" ++ parsedValue.host ++ ":" ++ dropOneLeadingSlash parsedValue.path

/-- `rewriteModuleURL` rewrites the module url to git ssh if required: when the
regex parse succeeds, the parsed scheme is `https` and the `SourceUrlType`
variable selects `git-ssh`, the url is rebuilt as `<user>@<host>:<path>`;
otherwise (including a failed regex parse, which only logs a warning) the
unmodified url is re-parsed with `ToSourceURL`. -/
def rewriteModuleURL (vars : Vars) (moduleURL : String) : Except ScaffoldErr URL :=
  match parseURL moduleURL with
  | none => toSourceURL moduleURL
  | some parsedValue =>
    if parsedValue.scheme = "https" ∧ sourceURLTypeOf vars = sourceURLTypeGit then
      toSourceURL (sshRewrite vars parsedValue)
    else
      toSourceURL moduleURL

/-- `parseModuleURL` — parse the module url and rewrite it if required
(each failing step propagates its error, as the Go early returns do). -/
def parseModuleURL (gitTag : URL → Except Unit String) (vars : Vars)
    (moduleURL : String) : Except ScaffoldErr String :=
  match toSourceURL moduleURL with
  | .error e => .error e
  | .ok parsedModuleURL =>
    match rewriteModuleURL vars (urlString parsedModuleURL) with
    | .error e => .error e
    | .ok parsedModuleURL =>
      .ok (urlString (addRefToModuleURL gitTag parsedModuleURL vars))

/-- The template-URL resolution stage of `prepareBoilerplateFiles`:
`terraform.ToSourceURL` followed by `rewriteTemplateURL`, re-rendered with
`String()` ("regenerate template url with all changes"). -/
def resolveTemplateSourceURL (gitTag : URL → Except Unit String)
    (templateURL : String) : Except ScaffoldErr String :=
  match toSourceURL templateURL with
  | .error e => .error e
  | .ok parsedTemplateURL => .ok (urlString (rewriteTemplateURL gitTag parsedTemplateURL))

/-! ## Variable classification -/

/-- `config.ParsedVariable` — {name, description, type, defaultValue,
defaultValuePlaceholder} (`Type` renamed to `typeName`; `type` is reserved). -/
structure ParsedVariable where
  name : String
  description : String
  typeName : String
  defaultValue : String
  defaultValuePlaceholder : String
deriving DecidableEq, Repr

/-- `parseVariables` — parse variables from tf files.  `config.ParseVariables`
is the collaborator whose result (or failure) is the `parsed` argument; the
classification loop that follows it never errors. -/
def parseVariables (parsed : Except ScaffoldErr (List ParsedVariable)) :
    Except ScaffoldErr (List ParsedVariable × List ParsedVariable) := do
  let inputs ← parsed
  let part := inputs.foldl
    (fun acc value =>
      if value.defaultValue = "" then (acc.1 ++ [value], acc.2)
      else (acc.1, acc.2 ++ [value]))
    ([], [])
  .ok part

/-! ## Behavioural lemmas about the URL functions -/

theorem splitSourceURL_update (u : URL) (q : Query) :
    splitSourceURL { u with rawQuery := q } = splitSourceURL u := rfl

/-- With no override variable, `addRefToModuleURL` performs exactly the
tag-pinning step of `rewriteTemplateURL`. -/
theorem addRef_none_eq_rewriteTemplate (gitTag : URL → Except Unit String)
    (u : URL) (vars : Vars) (hv : vars.ref = none) :
    addRefToModuleURL gitTag u vars = rewriteTemplateURL gitTag u := by
  unfold addRefToModuleURL rewriteTemplateURL
  rw [hv]

/-- Unfolding of `addRefToModuleURL` when no override variable is passed. -/
theorem addRef_none_eq (gitTag : URL → Except Unit String) (u : URL) (vars : Vars)
    (hv : vars.ref = none) :
    addRefToModuleURL gitTag u vars =
      (if Values.get (Values.parse u.rawQuery) refParam = "" then
        match gitTag (splitSourceURL u) with
        | .error _ => u
        | .ok tag =>
          if tag = "" then u
          else { u with
                   rawQuery := Values.encode
                     (Values.add (Values.parse u.rawQuery) refParam tag) }
      else u) := by
  unfold addRefToModuleURL
  rw [hv]

/-- Unfolding of `addRefToModuleURL` when the override variable is passed. -/
theorem addRef_override_eq (gitTag : URL → Except Unit String) (u : URL)
    (vars : Vars) (o : String) (hv : vars.ref = some o) :
    addRefToModuleURL gitTag u vars =
      (if o = "" then
        match gitTag (splitSourceURL u) with
        | .error _ =>
          { u with rawQuery := Values.encode (Values.set (Values.parse u.rawQuery) refParam o) }
        | .ok tag =>
          if tag = "" then
            { u with rawQuery := Values.encode (Values.set (Values.parse u.rawQuery) refParam o) }
          else
            { u with
                rawQuery := Values.encode
                  (Values.add (Values.set (Values.parse u.rawQuery) refParam o) refParam tag) }
      else
        { u with rawQuery := Values.encode (Values.set (Values.parse u.rawQuery) refParam o) }) := by
  unfold addRefToModuleURL
  rw [hv]
  dsimp only
  rw [Values.get_set_self]
  rfl

/-- With no override and a non-empty `ref` already present, the URL is
returned untouched. -/
theorem addRef_unchanged_of_ref_present (gitTag : URL → Except Unit String)
    (u : URL) (vars : Vars) (hv : vars.ref = none)
    (hg : Values.get (Values.parse u.rawQuery) refParam ≠ "") :
    addRefToModuleURL gitTag u vars = u := by
  rw [addRef_none_eq gitTag u vars hv, if_neg hg]

/-- When the transport-rewrite condition does not hold, `rewriteModuleURL`
re-parses the unmodified URL string. -/
theorem rewriteModuleURL_unchanged (vars : Vars) (s : String)
    (h : ∀ pv, parseURL s = some pv →
      ¬(pv.scheme = "https" ∧ sourceURLTypeOf vars = sourceURLTypeGit)) :
    rewriteModuleURL vars s = toSourceURL s := by
  unfold rewriteModuleURL
  cases hp : parseURL s with
  | none => rfl
  | some pv =>
    dsimp only
    rw [if_neg (h pv hp)]

/-- The classification loop of `parseVariables` is the pair of order-preserving
filters on `defaultValue`. -/
theorem classify_foldl (inputs : List ParsedVariable) (r o : List ParsedVariable) :
    inputs.foldl
      (fun acc value =>
        if value.defaultValue = "" then (acc.1 ++ [value], acc.2)
        else (acc.1, acc.2 ++ [value]))
      (r, o)
    = (r ++ inputs.filter (fun v => v.defaultValue == ""),
       o ++ inputs.filter (fun v => v.defaultValue != "")) := by
  induction inputs generalizing r o with
  | nil => simp
  | cons hd tl ih =>
    rw [List.foldl_cons]
    by_cases hd0 : hd.defaultValue = ""
    · rw [if_pos hd0, ih]
      simp [List.filter_cons, hd0]
    · rw [if_neg hd0, ih]
      simp [List.filter_cons, hd0]

/-- `addRefToModuleURL` only ever updates the `rawQuery` field. -/
theorem addRef_shape (gitTag : URL → Except Unit String) (u : URL) (vars : Vars) :
    ∃ q, addRefToModuleURL gitTag u vars = { u with rawQuery := q } := by
  rcases hv : vars.ref with _ | o
  · rw [addRef_none_eq gitTag u vars hv]
    by_cases hg : Values.get (Values.parse u.rawQuery) refParam = ""
    · rw [if_pos hg]
      cases gitTag (splitSourceURL u) with
      | error e => exact ⟨u.rawQuery, rfl⟩
      | ok tag =>
        dsimp only
        by_cases ht : tag = ""
        · rw [if_pos ht]; exact ⟨u.rawQuery, rfl⟩
        · rw [if_neg ht]; exact ⟨_, rfl⟩
    · rw [if_neg hg]; exact ⟨u.rawQuery, rfl⟩
  · rw [addRef_override_eq gitTag u vars o hv]
    by_cases ho : o = ""
    · rw [if_pos ho]
      cases gitTag (splitSourceURL u) with
      | error e => exact ⟨_, rfl⟩
      | ok tag =>
        dsimp only
        by_cases ht : tag = ""
        · rw [if_pos ht]; exact ⟨_, rfl⟩
        · rw [if_neg ht]; exact ⟨_, rfl⟩
    · rw [if_neg ho]; exact ⟨_, rfl⟩

/-- `rewriteTemplateURL` only ever updates the `rawQuery` field. -/
theorem rewriteTemplate_shape (gitTag : URL → Except Unit String) (u : URL) :
    ∃ q, rewriteTemplateURL gitTag u = { u with rawQuery := q } := by
  unfold rewriteTemplateURL
  by_cases hg : Values.get (Values.parse u.rawQuery) refParam = ""
  · rw [if_pos hg]
    cases gitTag (splitSourceURL u) with
    | error e => exact ⟨u.rawQuery, rfl⟩
    | ok tag =>
      dsimp only
      by_cases ht : tag = ""
      · rw [if_pos ht]; exact ⟨u.rawQuery, rfl⟩
      · rw [if_neg ht]; exact ⟨_, rfl⟩
  · rw [if_neg hg]; exact ⟨u.rawQuery, rfl⟩

/-! ## Claim theorems -/

/-- C2: `parseVariables` never errors on the classification itself and
partitions the declaration list: the two outputs are exactly the
order-preserving filters of the input by `defaultValue == ""` (so a
declaration lands in `required` iff its default is the empty string),
`len required + len optional = len input`, every input element appears in
exactly one output list, relative order is preserved (each output is a
sublist of the input), and the empty input yields two empty lists (the
filter characterization at `[]`). -/
theorem parseVariables_partition (inputs : List ParsedVariable) :
    ∃ required optional,
      parseVariables (.ok inputs) = .ok (required, optional)
      ∧ required = inputs.filter (fun v => v.defaultValue == "")
      ∧ optional = inputs.filter (fun v => v.defaultValue != "")
      ∧ required.length + optional.length = inputs.length
      ∧ (∀ v ∈ inputs, (v ∈ required ↔ v.defaultValue = "")
          ∧ (v ∈ optional ↔ v.defaultValue ≠ ""))
      ∧ required.Sublist inputs ∧ optional.Sublist inputs := by
  refine ⟨_, _, ?_, rfl, rfl, ?_, ?_, List.filter_sublist _, List.filter_sublist _⟩
  · unfold parseVariables
    dsimp only [bind, Except.bind]
    rw [classify_foldl]
    simp
  · induction inputs with
    | nil => rfl
    | cons hd tl ih =>
      by_cases h0 : hd.defaultValue = ""
      · have h1 : (hd.defaultValue == "") = true := by simpa using h0
        have h2 : (hd.defaultValue != "") = false := by simpa using h0
        rw [List.filter_cons, List.filter_cons, h1, h2, if_pos rfl, if_neg (by simp)]
        simp only [List.length_cons]
        omega
      · have h1 : (hd.defaultValue == "") = false := by simpa using h0
        have h2 : (hd.defaultValue != "") = true := by simpa using h0
        rw [List.filter_cons, List.filter_cons, h1, h2, if_pos rfl, if_neg (by simp)]
        simp only [List.length_cons]
        omega
  · intro v hv
    constructor
    · simp [List.mem_filter, hv]
    · simp [List.mem_filter, hv]

/-- C3: when the `Ref` override variable is passed, the `ref` query parameter
of the returned URL (in Go's `Values.Get` sense: the first value under the
key) equals the override, regardless of any pre-existing `ref` parameter and
of whatever the tag lookup would return. -/
theorem addRefToModuleURL_override_wins
    (gitTag : URL → Except Unit String) (u : URL) (vars : Vars) (o : String)
    (h : vars.ref = some o) :
    Values.get (Values.parse (addRefToModuleURL gitTag u vars).rawQuery) refParam = o := by
  have hc : Values.Canon (Values.set (Values.parse u.rawQuery) refParam o) :=
    Values.Canon_set (Values.Canon_parse _) _ _
  rw [addRef_override_eq gitTag u vars o h]
  by_cases ho : o = ""
  · rw [if_pos ho]
    cases hg : gitTag (splitSourceURL u) with
    | error e =>
      dsimp only
      rw [Values.parse_encode hc, Values.get_set_self]
    | ok tag =>
      dsimp only
      by_cases ht : tag = ""
      · rw [if_pos ht]
        dsimp only
        rw [Values.parse_encode hc, Values.get_set_self]
      · rw [if_neg ht]
        dsimp only
        simp only [Values.add]
        rw [Values.parse_encode (Values.Canon_addPair hc refParam tag)]
        rw [Values.get, Values.valuesOf_addPair_self hc, Values.valuesOf_set_self]
        rw [ho]
        rfl
  · rw [if_neg ho]
    dsimp only
    rw [Values.parse_encode hc, Values.get_set_self]

/-- C3 witness: concrete run with a pre-existing `ref` and a would-be tag. -/
theorem addRefToModuleURL_override_wins_witness :
    Values.get (Values.parse (addRefToModuleURL (fun _ => .ok "v9")
      { scheme := "git::https", scpLike := false, user := "", host := "example.com",
        path := "/org/repo.git//m", rawQuery := [("ref", "v1")] }
      { sourceUrlType := none, sourceGitSshUser := none, ref := some "v2" }).rawQuery)
      refParam = "v2" :=
  addRefToModuleURL_override_wins _ _ _ _ rfl

/-- C6: on a URL with no `ref` query parameter and no override variable, a
failed or empty tag lookup is soft: `addRefToModuleURL` and
`rewriteTemplateURL` both return the URL unchanged (unpinned).  Their only Go
error source, `terraform.SplitSourceURL`, is modelled total, so the returned
error is nil: the lookup failure is never propagated. -/
theorem ref_lookup_failure_is_soft
    (gitTag : URL → Except Unit String) (u : URL) (vars : Vars)
    (href : vars.ref = none)
    (hnoRef : Values.hasKey (Values.parse u.rawQuery) refParam = false)
    (hfail : gitTag (splitSourceURL u) = .error ()
      ∨ gitTag (splitSourceURL u) = .ok "") :
    addRefToModuleURL gitTag u vars = u ∧ rewriteTemplateURL gitTag u = u := by
  have hget : Values.get (Values.parse u.rawQuery) refParam = "" :=
    Values.get_eq_nil_of_not_hasKey hnoRef
  have hmain : addRefToModuleURL gitTag u vars = u := by
    rw [addRef_none_eq gitTag u vars href, if_pos hget]
    rcases hfail with hf | hf
    · rw [hf]
    · rw [hf]
      dsimp only
      rw [if_pos rfl]
  refine ⟨hmain, ?_⟩
  rw [← addRef_none_eq_rewriteTemplate gitTag u vars href]
  exact hmain

/-- C6 witness: a concrete failed lookup on an unpinned URL. -/
theorem ref_lookup_failure_is_soft_witness :
    addRefToModuleURL (fun _ => .error ())
        { scheme := "git::https", scpLike := false, user := "", host := "example.com",
          path := "/org/repo.git//m", rawQuery := [] }
        { sourceUrlType := none, sourceGitSshUser := none, ref := none }
      = { scheme := "git::https", scpLike := false, user := "", host := "example.com",
          path := "/org/repo.git//m", rawQuery := [] }
    ∧ rewriteTemplateURL (fun _ => .error ())
        { scheme := "git::https", scpLike := false, user := "", host := "example.com",
          path := "/org/repo.git//m", rawQuery := [] }
      = { scheme := "git::https", scpLike := false, user := "", host := "example.com",
          path := "/org/repo.git//m", rawQuery := [] } :=
  ref_lookup_failure_is_soft _ _ _ rfl rfl (Or.inl rfl)

/-- C9: `addRefToModuleURL` and `rewriteTemplateURL` modify only the
`RawQuery` field: scheme, URL form, user, host and path of the result equal
those of the input.  (In Go both functions also return the very pointer they
were given — they mutate `RawQuery` in place; pointer identity has no
counterpart in this value-level embedding, where the fact is reflected by the
result differing from the input in at most `rawQuery`.) -/
theorem addRef_rewriteTemplate_modify_only_rawQuery
    (gitTag : URL → Except Unit String) (u : URL) (vars : Vars) :
    ((addRefToModuleURL gitTag u vars).scheme = u.scheme
      ∧ (addRefToModuleURL gitTag u vars).scpLike = u.scpLike
      ∧ (addRefToModuleURL gitTag u vars).user = u.user
      ∧ (addRefToModuleURL gitTag u vars).host = u.host
      ∧ (addRefToModuleURL gitTag u vars).path = u.path)
    ∧ ((rewriteTemplateURL gitTag u).scheme = u.scheme
      ∧ (rewriteTemplateURL gitTag u).scpLike = u.scpLike
      ∧ (rewriteTemplateURL gitTag u).user = u.user
      ∧ (rewriteTemplateURL gitTag u).host = u.host
      ∧ (rewriteTemplateURL gitTag u).path = u.path) := by
  obtain ⟨q1, h1⟩ := addRef_shape gitTag u vars
  obtain ⟨q2, h2⟩ := rewriteTemplate_shape gitTag u
  rw [h1, h2]
  exact ⟨⟨rfl, rfl, rfl, rfl, rfl⟩, ⟨rfl, rfl, rfl, rfl, rfl⟩⟩

/-- C7: the transport rewrite of `rewriteModuleURL` rebuilds the URL as
`<user>@<host>:<path>` only when the regex parse succeeds with scheme `https`
and the `SourceUrlType` variable selects `git-ssh`; for every other
combination of scheme and requested type (including a failed regex parse) the
unmodified URL string is re-parsed, so the URL's scheme is left unchanged. -/
theorem rewriteModuleURL_transport_condition (vars : Vars) (s : String) :
    ((∀ pv, parseURL s = some pv →
        ¬(pv.scheme = "https" ∧ sourceURLTypeOf vars = sourceURLTypeGit)) →
      rewriteModuleURL vars s = toSourceURL s)
    ∧ (∀ pv, parseURL s = some pv →
        pv.scheme = "https" → sourceURLTypeOf vars = sourceURLTypeGit →
        rewriteModuleURL vars s = toSourceURL (sshRewrite vars pv)) := by
  constructor
  · exact rewriteModuleURL_unchanged vars s
  · intro pv hp h1 h2
    unfold rewriteModuleURL
    rw [hp]
    dsimp only
    rw [if_pos ⟨h1, h2⟩]

/-- C7 witness: the same HTTPS module URL is left unchanged under the default
transport type, and rebuilt as `git@example.com:...` when `git-ssh` is
selected. -/
theorem rewriteModuleURL_transport_condition_witness :
    rewriteModuleURL { sourceUrlType := none, sourceGitSshUser := none, ref := none }
        "git::https://example.com/org/repo.git//m"
      = toSourceURL "git::https://example.com/org/repo.git//m"
    ∧ rewriteModuleURL { sourceUrlType := some "git-ssh", sourceGitSshUser := none, ref := none }
        "git::https://example.com/org/repo.git//m"
      = toSourceURL (sshRewrite
          { sourceUrlType := some "git-ssh", sourceGitSshUser := none, ref := none }
          { scheme := "https", host := "example.com", path := "/org/repo.git//m" }) := by
  constructor
  · refine (rewriteModuleURL_transport_condition _ _).1 ?_
    intro pv hp hcond
    have h0 : parseURL "git::https://example.com/org/repo.git//m"
        = some { scheme := "https", host := "example.com", path := "/org/repo.git//m" } := rfl
    rw [h0] at hp
    injection hp with hpv
    subst hpv
    exact absurd hcond.2 (by decide)
  · exact (rewriteModuleURL_transport_condition _ _).2
      { scheme := "https", host := "example.com", path := "/org/repo.git//m" } rfl rfl rfl

/-- C8 counterexample: with the override variable present but equal to the
empty string and a successful tag lookup, `Set` stores an empty `ref`, the
lookup branch then `Add`s the tag, and the encoded query carries two `ref`
pairs — refuting the claim, which explicitly includes the empty-override
case. -/
theorem addRefToModuleURL_duplicate_ref_param :
    ¬ (Values.countKey (addRefToModuleURL (fun _ => .ok "v1")
        { scheme := "git::https", scpLike := false, user := "", host := "example.com",
          path := "/org/repo.git", rawQuery := [] }
        { sourceUrlType := none, sourceGitSshUser := none, ref := some "" }).rawQuery
        refParam ≤ 1) := by decide

/-- C8 (amended): if the URL's query carries at most one `ref` pair, the
override variable (when present) is non-empty, and the query does not already
carry an empty-valued `ref`, then the URL returned by `addRefToModuleURL`
carries at most one value under the `ref` key.  (With an empty override, or a
pre-existing empty-valued `ref`, a successful tag lookup `Add`s a second
`ref` pair — see the counterexample.) -/
theorem addRefToModuleURL_ref_param_unique
    (gitTag : URL → Except Unit String) (u : URL) (vars : Vars)
    (hdup : Values.countKey u.rawQuery refParam ≤ 1)
    (hov : vars.ref ≠ some "")
    (hempty : ¬(Values.hasKey (Values.parse u.rawQuery) refParam = true
        ∧ Values.get (Values.parse u.rawQuery) refParam = "")) :
    Values.countKey (addRefToModuleURL gitTag u vars).rawQuery refParam ≤ 1 := by
  have hm : Values.Canon (Values.parse u.rawQuery) := Values.Canon_parse _
  rcases hv : vars.ref with _ | o
  · rw [addRef_none_eq gitTag u vars hv]
    by_cases hg : Values.get (Values.parse u.rawQuery) refParam = ""
    · have hk : Values.hasKey (Values.parse u.rawQuery) refParam = false := by
        cases hx : Values.hasKey (Values.parse u.rawQuery) refParam
        · rfl
        · exact absurd ⟨hx, hg⟩ hempty
      rw [if_pos hg]
      cases gitTag (splitSourceURL u) with
      | error e => exact hdup
      | ok tag =>
        dsimp only
        by_cases ht : tag = ""
        · rw [if_pos ht]; exact hdup
        · rw [if_neg ht]
          dsimp only
          simp only [Values.add]
          rw [Values.countKey_encode (Values.Canon_addPair hm refParam tag),
            Values.valuesOf_addPair_self hm,
            Values.valuesOf_eq_nil_of_not_hasKey hk]
          simp
    · rw [if_neg hg]; exact hdup
  · have ho : o ≠ "" := fun he => hov (by rw [hv, he])
    rw [addRef_override_eq gitTag u vars o hv, if_neg ho]
    dsimp only
    rw [Values.countKey_encode (Values.Canon_set hm refParam o),
      Values.valuesOf_set_self]
    simp

/-- C8 witness: a URL with one foreign query pair, no override, successful
lookup — the result has a single `ref` pair. -/
theorem addRefToModuleURL_ref_param_unique_witness :
    Values.countKey (addRefToModuleURL (fun _ => .ok "v1")
      { scheme := "git::https", scpLike := false, user := "", host := "example.com",
        path := "/org/repo.git", rawQuery := [("a", "1")] }
      { sourceUrlType := none, sourceGitSshUser := none, ref := none }).rawQuery
      refParam ≤ 1 :=
  addRefToModuleURL_ref_param_unique _ _ _ (by decide) (by decide) (by decide)

/-- C4 counterexample: on a URL already carrying an *empty-valued* `ref`
parameter, with no override and a fixed successful tag lookup, the first
application appends `ref=v1` and the second appends it again: applying
`addRefToModuleURL` twice differs from applying it once (and the URL, though
it carries a `ref` parameter, is not returned unchanged). -/
theorem addRefToModuleURL_not_idempotent_on_empty_ref :
    addRefToModuleURL (fun _ => .ok "v1")
        (addRefToModuleURL (fun _ => .ok "v1")
          { scheme := "git::https", scpLike := false, user := "", host := "example.com",
            path := "/org/repo.git", rawQuery := [("ref", "")] }
          { sourceUrlType := none, sourceGitSshUser := none, ref := none })
        { sourceUrlType := none, sourceGitSshUser := none, ref := none }
      ≠ addRefToModuleURL (fun _ => .ok "v1")
          { scheme := "git::https", scpLike := false, user := "", host := "example.com",
            path := "/org/repo.git", rawQuery := [("ref", "")] }
          { sourceUrlType := none, sourceGitSshUser := none, ref := none } := by
  decide

/-- C4 (amended): for a fixed deterministic tag lookup, `addRefToModuleURL`
is idempotent on every URL whose query does not already carry a `ref`
parameter whose first value is the empty string (the counterexample shows
idempotence fails there); in particular a URL carrying a non-empty `ref`
parameter is returned unchanged when no override variable is passed. -/
theorem addRefToModuleURL_idempotent
    (gitTag : URL → Except Unit String) (u : URL) (vars : Vars)
    (h : ¬(Values.hasKey (Values.parse u.rawQuery) refParam = true
        ∧ Values.get (Values.parse u.rawQuery) refParam = "")) :
    addRefToModuleURL gitTag (addRefToModuleURL gitTag u vars) vars
      = addRefToModuleURL gitTag u vars
    ∧ (vars.ref = none → Values.get (Values.parse u.rawQuery) refParam ≠ "" →
        addRefToModuleURL gitTag u vars = u) := by
  have hm : Values.Canon (Values.parse u.rawQuery) := Values.Canon_parse _
  refine ⟨?_, fun hv hg => addRef_unchanged_of_ref_present gitTag u vars hv hg⟩
  rcases hv : vars.ref with _ | o
  · by_cases hg : Values.get (Values.parse u.rawQuery) refParam = ""
    · have hk : Values.hasKey (Values.parse u.rawQuery) refParam = false := by
        cases hx : Values.hasKey (Values.parse u.rawQuery) refParam
        · rfl
        · exact absurd ⟨hx, hg⟩ h
      rw [addRef_none_eq gitTag u vars hv, if_pos hg]
      cases hgit : gitTag (splitSourceURL u) with
      | error e =>
        dsimp only
        rw [addRef_none_eq gitTag u vars hv, if_pos hg, hgit]
      | ok tag =>
        dsimp only
        by_cases ht : tag = ""
        · rw [if_pos ht]
          rw [addRef_none_eq gitTag u vars hv, if_pos hg, hgit]
          dsimp only
          rw [if_pos ht]
        · rw [if_neg ht]
          refine addRef_unchanged_of_ref_present gitTag _ vars hv ?_
          dsimp only
          simp only [Values.add]
          rw [Values.parse_encode (Values.Canon_addPair hm refParam tag)]
          rw [Values.get, Values.valuesOf_addPair_self hm,
            Values.valuesOf_eq_nil_of_not_hasKey hk]
          simpa using ht
    · have h2 := addRef_unchanged_of_ref_present gitTag u vars hv hg
      rw [h2]
      exact h2
  · have hc : Values.Canon (Values.set (Values.parse u.rawQuery) refParam o) :=
      Values.Canon_set hm refParam o
    by_cases ho : o = ""
    · subst ho
      rw [addRef_override_eq gitTag u vars "" hv, if_pos rfl]
      cases hgit : gitTag (splitSourceURL u) with
      | error e =>
        dsimp only
        rw [addRef_override_eq gitTag _ vars "" hv, if_pos rfl]
        dsimp only
        rw [splitSourceURL_update, hgit]
        dsimp only
        rw [Values.parse_encode hc, Values.set_set]
      | ok tag =>
        dsimp only
        by_cases ht : tag = ""
        · rw [if_pos ht]
          rw [addRef_override_eq gitTag _ vars "" hv, if_pos rfl]
          dsimp only
          rw [splitSourceURL_update, hgit]
          dsimp only
          rw [if_pos ht]
          rw [Values.parse_encode hc, Values.set_set]
        · rw [if_neg ht]
          rw [addRef_override_eq gitTag _ vars "" hv, if_pos rfl]
          dsimp only
          rw [splitSourceURL_update, hgit]
          dsimp only
          rw [if_neg ht]
          simp only [Values.add]
          rw [Values.parse_encode (Values.Canon_addPair hc refParam tag),
            Values.set_addPair, Values.set_set]
    · rw [addRef_override_eq gitTag u vars o hv, if_neg ho]
      rw [addRef_override_eq gitTag _ vars o hv, if_neg ho]
      dsimp only
      rw [Values.parse_encode hc, Values.set_set]

/-- C4 witness: idempotence at a URL whose `ref` is already pinned. -/
theorem addRefToModuleURL_idempotent_witness :
    addRefToModuleURL (fun _ => .ok "v9")
        (addRefToModuleURL (fun _ => .ok "v9")
          { scheme := "git::https", scpLike := false, user := "", host := "example.com",
            path := "/org/repo.git", rawQuery := [("ref", "v1")] }
          { sourceUrlType := none, sourceGitSshUser := none, ref := none })
        { sourceUrlType := none, sourceGitSshUser := none, ref := none }
      = addRefToModuleURL (fun _ => .ok "v9")
          { scheme := "git::https", scpLike := false, user := "", host := "example.com",
            path := "/org/repo.git", rawQuery := [("ref", "v1")] }
          { sourceUrlType := none, sourceGitSshUser := none, ref := none }
    ∧ addRefToModuleURL (fun _ => .ok "v9")
          { scheme := "git::https", scpLike := false, user := "", host := "example.com",
            path := "/org/repo.git", rawQuery := [("ref", "v1")] }
          { sourceUrlType := none, sourceGitSshUser := none, ref := none }
        = { scheme := "git::https", scpLike := false, user := "", host := "example.com",
            path := "/org/repo.git", rawQuery := [("ref", "v1")] } := by
  have h := addRefToModuleURL_idempotent (fun _ => .ok "v9")
    { scheme := "git::https", scpLike := false, user := "", host := "example.com",
      path := "/org/repo.git", rawQuery := [("ref", "v1")] }
    { sourceUrlType := none, sourceGitSshUser := none, ref := none }
    (by decide)
  exact ⟨h.1, h.2 rfl (by decide)⟩

/-- C5 counterexample: with a `Ref` override and a discoverable tag, module
resolution pins the override (`?ref=v2`) while template resolution — which
reads no variables at all — pins the discovered tag (`?ref=v1`): the two
resolution functions differ on the same URL and variable map. -/
theorem template_resolution_differs_from_module :
    parseModuleURL (fun _ => .ok "v1")
        { sourceUrlType := none, sourceGitSshUser := none, ref := some "v2" }
        "git::https://example.com/org/repo.git//m"
      ≠ resolveTemplateSourceURL (fun _ => .ok "v1")
        "git::https://example.com/org/repo.git//m" := by
  intro hcon
  rw [show parseModuleURL (fun _ => .ok "v1")
        { sourceUrlType := none, sourceGitSshUser := none, ref := some "v2" }
        "git::https://example.com/org/repo.git//m"
      = .ok "git::https://example.com/org/repo.git//m?ref=v2" from rfl,
    show resolveTemplateSourceURL (fun _ => .ok "v1")
        "git::https://example.com/org/repo.git//m"
      = .ok "git::https://example.com/org/repo.git//m?ref=v1" from rfl] at hcon
  injection hcon with hs
  exact absurd hs (by decide)

/-- C5 (amended): template-source resolution applies only the tag-lookup ref
pinning stage of module resolution — not the transport rewrite and not the
`Ref` override pinning (see the counterexample).  The two resolutions agree
exactly when the extra module stages are inert: no `Ref` override variable,
`SourceUrlType` not selecting `git-ssh`, on any URL whose normalization
round-trips through `String()`. -/
theorem template_resolution_eq_module_resolution
    (gitTag : URL → Except Unit String) (vars : Vars) (s : String) (u : URL)
    (href : vars.ref = none)
    (htype : sourceURLTypeOf vars ≠ sourceURLTypeGit)
    (hparse : toSourceURL s = .ok u)
    (hrt : toSourceURL (urlString u) = .ok u) :
    parseModuleURL gitTag vars s = resolveTemplateSourceURL gitTag s := by
  have h1 : rewriteModuleURL vars (urlString u) = .ok u := by
    rw [rewriteModuleURL_unchanged vars (urlString u) (fun pv hp hc => htype hc.2), hrt]
  unfold parseModuleURL resolveTemplateSourceURL
  rw [hparse]
  dsimp only
  rw [h1]
  dsimp only
  rw [addRef_none_eq_rewriteTemplate gitTag u vars href]

/-- C5 witness: the two resolutions agree on a concrete URL with no override
and the default transport type. -/
theorem template_resolution_eq_module_resolution_witness :
    parseModuleURL (fun _ => .ok "v1")
        { sourceUrlType := none, sourceGitSshUser := none, ref := none }
        "git::https://example.com/org/repo.git//m"
      = resolveTemplateSourceURL (fun _ => .ok "v1")
        "git::https://example.com/org/repo.git//m" :=
  template_resolution_eq_module_resolution _ _ _
    { scheme := "git::https", scpLike := false, user := "", host := "example.com",
      path := "/org/repo.git//m", rawQuery := [] }
    rfl (by decide) rfl rfl

/-! ## The pipeline `Run` and its cleanup behaviour

`Run` is modelled as a state-passing function over a filesystem (the list of
existing directories), with each fallible collaborator call's outcome injected
through an oracle.  The deferred cleanup loop (`for dir in dirsToClean:
os.RemoveAll(dir)`) runs on every exit path, exactly as `defer` does. -/

/-- The filesystem: the list of existing directories. -/
abbrev FS := List String

/-- Char-list prefix test (kept elementary so that evaluation is pure
structural recursion). -/
def charsLeadingIn : List Char → List Char → Bool
  | [], _ => true
  | _ :: _, [] => false
  | c :: cs, d :: ds => c = d && charsLeadingIn cs ds

/-- `p` is `d` itself or a path below it. -/
def isUnder (d p : String) : Bool :=
  p == d || charsLeadingIn (d ++ "/").toList p.toList

/-- `os.RemoveAll dir`: delete the directory and everything below it. -/
def removeAll (d : String) (fs : FS) : FS :=
  fs.filter (fun p => ¬ isUnder d p)

/-- `os.MkdirTemp` / a collaborator creating a directory (the fresh name is
injected by the oracle). -/
def mkdirFS (d : String) (fs : FS) : FS := d :: fs

/-- `files.IsExistingDir`. -/
def isExistingDir (fs : FS) (d : String) : Bool := fs.contains d

/-- `util.JoinPath`. -/
def joinPath (a b : String) : String := a ++ "/" ++ b

/-- Modelled from the spec: `util.DefaultBoilerplateDir` (repository code not
under `src/`) names the "conventional subdirectory inside the fetched module"
holding a custom template; the exact name is immaterial. -/
def defaultBoilerplateDirName : String := ".boilerplate"

/-- The collaborator outcomes of one `Run`, injected as data: each `Except`
is the result of the corresponding fallible call in source order. -/
structure RunOracle where
  isEmptyDir : Except ScaffoldErr Bool
  mkTempScaffold : Except ScaffoldErr String
  varsResult : Except ScaffoldErr Vars
  gitTag : URL → Except Unit String
  getModule : Except ScaffoldErr Unit
  moduleHasBoilerplateDir : Bool
  parsedInputs : Except ScaffoldErr (List ParsedVariable)
  mkTempTemplate : Except ScaffoldErr String
  getTemplate : Except ScaffoldErr Unit
  mkTempDefault : Except ScaffoldErr String
  writeHclFile : Except ScaffoldErr Unit
  writeYmlFile : Except ScaffoldErr Unit
  processTemplate : Except ScaffoldErr Unit
  hclFmt : Except ScaffoldErr Unit

/-- `prepareBoilerplateFiles` prepares boilerplate files: resolve and fetch an
explicit template URL into a fresh temp dir, else use the module's
conventional subdirectory, else materialize the default template into another
fresh temp dir.  It returns the chosen boilerplate directory and the
filesystem as it leaves it.  The temp dirs it creates (`template`,
`boilerplate`) are registered nowhere — only `Run`'s own `dirsToClean` is ever
cleaned. -/
def prepareBoilerplateFiles (o : RunOracle) (templateURL tempDir : String)
    (fs : FS) : Except ScaffoldErr String × FS :=
  match (if templateURL ≠ "" then
          match toSourceURL templateURL with
          | .error e => (Except.error e, fs)
          | .ok parsedTemplateURL =>
            let _templateURL := urlString (rewriteTemplateURL o.gitTag parsedTemplateURL)
            match o.mkTempTemplate with
            | .error e => (Except.error e, fs)
            | .ok templateDir =>
              match o.getTemplate with
              | .error e => (Except.error e, mkdirFS templateDir fs)
              | .ok _ => (Except.ok templateDir, mkdirFS templateDir fs)
        else (Except.ok "", fs) : Except ScaffoldErr String × FS) with
  | (.error e, fs) => (.error e, fs)
  | (.ok templateDir, fs) =>
    let boilerplateDir := joinPath tempDir defaultBoilerplateDirName
    let boilerplateDir := if templateDir ≠ "" then templateDir else boilerplateDir
    if ¬ isExistingDir fs boilerplateDir then
      match o.mkTempDefault with
      | .error e => (.error e, fs)
      | .ok defaultTempDir =>
        let fs := mkdirFS defaultTempDir fs
        match o.writeHclFile with
        | .error e => (.error e, fs)
        | .ok _ =>
          match o.writeYmlFile with
          | .error e => (.error e, fs)
          | .ok _ => (.ok defaultTempDir, fs)
    else (.ok boilerplateDir, fs)

/-- `Run` — the scaffold pipeline, returning the Go result together with the
final filesystem.  `dirsToClean` accumulates only the module download temp
dir; the deferred loop removes exactly its entries on every exit path. -/
def Run (o : RunOracle) (moduleURL templateURL : String) :
    Except ScaffoldErr Unit × FS :=
  let fs : FS := []
  match o.isEmptyDir with
  | .error e => (.error e, fs)
  | .ok _ =>
    if moduleURL = "" then (.error .noModuleURLPassed, fs)
    else
      match o.mkTempScaffold with
      | .error e => (.error e, fs)
      | .ok tempDir =>
        let fs := mkdirFS tempDir fs
        let dirsToClean := [tempDir]
        let finish : Except ScaffoldErr Unit → FS → Except ScaffoldErr Unit × FS :=
          fun res fs => (res, dirsToClean.foldl (fun f d => removeAll d f) fs)
        match o.varsResult with
        | .error e => finish (.error e) fs
        | .ok vars =>
          match parseModuleURL o.gitTag vars moduleURL with
          | .error e => finish (.error e) fs
          | .ok _resolvedModuleURL =>
            match o.getModule with
            | .error e => finish (.error e) fs
            | .ok _ =>
              let fs := if o.moduleHasBoilerplateDir
                then mkdirFS (joinPath tempDir defaultBoilerplateDirName) fs
                else fs
              match parseVariables o.parsedInputs with
              | .error e => finish (.error e) fs
              | .ok _classified =>
                match prepareBoilerplateFiles o templateURL tempDir fs with
                | (.error e, fs) => finish (.error e) fs
                | (.ok _boilerplateDir, fs) =>
                  match o.processTemplate with
                  | .error e => finish (.error e) fs
                  | .ok _ =>
                    match o.hclFmt with
                    | .error e => finish (.error e) fs
                    | .ok _ => finish (.ok ()) fs

/-- Oracle for C1's failing input: every collaborator succeeds; the temp dirs
handed out are `/tmp/scaffold1` (module), `/tmp/template1` (template) and
`/tmp/boilerplate1` (default template). -/
def runOracleLeak : RunOracle where
  isEmptyDir := .ok true
  mkTempScaffold := .ok "/tmp/scaffold1"
  varsResult := .ok { sourceUrlType := none, sourceGitSshUser := none, ref := none }
  gitTag := fun _ => .error ()
  getModule := .ok ()
  moduleHasBoilerplateDir := false
  parsedInputs := .ok []
  mkTempTemplate := .ok "/tmp/template1"
  getTemplate := .ok ()
  mkTempDefault := .ok "/tmp/boilerplate1"
  writeHclFile := .ok ()
  writeYmlFile := .ok ()
  processTemplate := .ok ()
  hclFmt := .ok ()

/-- C1: evaluation at the failing inputs.  Two fully successful runs: with a
template URL, `Run` returns nil yet the template scratch dir
(`/tmp/template1`) is still on the filesystem — only the module download dir
(`/tmp/scaffold1`, the sole entry of `dirsToClean`) was removed by the
deferred cleanup; without a template URL and with no conventional template
subdirectory, the default-template scratch dir (`/tmp/boilerplate1`) likewise
survives.  This refutes the claim that every scratch directory created during
the run is removed by the time `Run` returns. -/
theorem run_leaves_template_scratch_dir :
    Run runOracleLeak "git::https://example.com/org/repo.git//m"
        "git::https://example.com/org/tpl.git"
      = (.ok (), ["/tmp/template1"])
    ∧ Run runOracleLeak "git::https://example.com/org/repo.git//m" ""
      = (.ok (), ["/tmp/boilerplate1"]) :=
  ⟨rfl, rfl⟩

/-! ## `GetExitCode` (from the `util` source file)

Go error values, as far as `GetExitCode` can observe them:
* `exitErr s` — an `*exec.ExitError` whose `Sys().(syscall.WaitStatus)` exit
  status is `s`; it has no `Unwrap` method;
* `procExec inner` — a `ProcessExecutionError{Err: inner}`: the only type in
  the source implementing `ExitStatus() (int, error)` (which returns
  `GetExitCode(inner)`); it has no `Unwrap` method;
* `multi es` — a `*multierror.Error` with member list `es`; its `Unwrap`
  returns the sole member directly when there is exactly one, and otherwise a
  chain whose `As` tries the members in order, each through its own wrap
  chain;
* `wrap inner` — the internal `errors` wrapper (`errors.New(err)`): it
  implements `Unwrap` and no other interface;
* `basic n` — any other error. -/
inductive GoErr where
  | exitErr (status : Int) : GoErr
  | procExec (inner : GoErr) : GoErr
  | multi (errs : List GoErr) : GoErr
  | wrap (inner : GoErr) : GoErr
  | basic (tag : Nat) : GoErr

mutual

/-- `errors.As(err, &exec.ExitError)` composed with reading the wait status:
walk the unwrap chain; a multierror's chain delegates to its members in
order. -/
def asExitError : GoErr → Option Int
  | .exitErr s => some s
  | .wrap e => asExitError e
  | .multi es => asExitErrorL es
  | _ => none

def asExitErrorL : List GoErr → Option Int
  | [] => none
  | e :: es =>
    match asExitError e with
    | some s => some s
    | none => asExitErrorL es

end

/-- `errors.As(err, &multierror.Error)`: a multierror matches at its own node,
possibly behind wrappers; `exec.ExitError` and `ProcessExecutionError` have no
`Unwrap`, so nothing is found behind them. -/
def asMulti : GoErr → Option (List GoErr)
  | .multi es => some es
  | .wrap e => asMulti e
  | _ => none

mutual

/-- `GetExitCode` returns the exit code of a command.  Step 1:
`errors.Unwrap(err).(iErrorCode)` — the unwrap is a `ProcessExecutionError`
(the only `ExitStatus()` implementor) in exactly two shapes: the internal
wrapper directly around one, and a single-member multierror whose sole member
is one (go-multierror's `Unwrap` returns the lone member itself when
`len(Errors) == 1`); `ExitStatus()` is `GetExitCode` of the embedded error,
returned verbatim.  Step 2: `errors.As` for `*exec.ExitError`.  Step 3:
`errors.As` for `*multierror.Error`, then the members in order, returning the
first recovered code.  Otherwise `(0, err)` with the input error. -/
def GetExitCode : GoErr → Int × Option GoErr
  | .basic n => (0, some (.basic n))
  | .procExec p => (0, some (.procExec p))
  | .exitErr s => (s, none)
  | .multi [.procExec p] => GetExitCode p
  | .multi es =>
    (match asExitErrorL es with
     | some s => (s, none)
     | none =>
       match multiExit es with
       | some c => (c, none)
       | none => (0, some (.multi es)))
  | .wrap (.procExec p) => GetExitCode p
  | .wrap e => tailSteps (.wrap e) e

/-- Steps 2–3 of `GetExitCode` on the unwrap chain of `orig` (reached when
step 1 does not fire): find an `exec.ExitError`, else a multierror whose
member loop recovers a code, else fall back to `(0, orig)`. -/
def tailSteps (orig : GoErr) : GoErr → Int × Option GoErr
  | .wrap e => tailSteps orig e
  | .exitErr s => (s, none)
  | .multi es =>
    (match asExitErrorL es with
     | some s => (s, none)
     | none =>
       match multiExit es with
       | some c => (c, none)
       | none => (0, some orig))
  | _ => (0, some orig)

/-- The member loop of step 3: the first member whose `GetExitCode` has a nil
error yields the code. -/
def multiExit : List GoErr → Option Int
  | [] => none
  | m :: ms =>
    match GetExitCode m with
    | (c, none) => some c
    | _ => multiExit ms

end

/-- Whether some member of the list recovers an exit code with a nil error. -/
def anyMemberRecovered : List GoErr → Bool
  | [] => false
  | m :: ms => (GetExitCode m).2.isNone || anyMemberRecovered ms

/-- Whether the error's direct unwrap implements `ExitStatus()` and that call
yields a nil error.  The one implementor is `ProcessExecutionError`, whose
`ExitStatus` is `GetExitCode` of its embedded error; the unwrap reaches one
either through the internal wrapper or as the sole member of a single-member
multierror. -/
def unwrappedExitStatusNilErr : GoErr → Bool
  | .wrap (.procExec p) => (GetExitCode p).2.isNone
  | .multi [.procExec p] => (GetExitCode p).2.isNone
  | _ => false

/-- The claim's notion of "an exit status is recoverable from the error":
the unwrapped `ExitStatus()` implementation succeeds with a nil error, or an
`exec.ExitError` is found by `As`, or the error is a multierror one of whose
members recovers a code with a nil error. -/
def recoverable (e : GoErr) : Bool :=
  unwrappedExitStatusNilErr e
  || (asExitError e).isSome
  || (match asMulti e with
      | some es => anyMemberRecovered es
      | none => false)

theorem multiExit_none_iff (es : List GoErr) :
    multiExit es = none ↔ anyMemberRecovered es = false := by
  induction es with
  | nil => simp [multiExit, anyMemberRecovered]
  | cons m ms ih =>
    cases hm : GetExitCode m with
    | mk c oe =>
      cases oe with
      | none =>
        rw [multiExit, anyMemberRecovered, hm]
        simp
      | some e' =>
        rw [multiExit, anyMemberRecovered, hm]
        simpa using ih

/-- `tailSteps` in terms of the two `As` searches. -/
theorem tailSteps_eq : ∀ orig cur : GoErr,
    tailSteps orig cur =
      (match asExitError cur with
       | some s => (s, none)
       | none =>
         match asMulti cur with
         | some es =>
           (match multiExit es with
            | some c => (c, none)
            | none => (0, some orig))
         | none => (0, some orig))
  | orig, .wrap e => by
    rw [tailSteps, tailSteps_eq orig e]
    rfl
  | _, .exitErr s => rfl
  | _, .multi es => rfl
  | _, .procExec p => rfl
  | _, .basic n => rfl

/-- The fallback characterization for an error on which step 1 yields no nil
error: `tailSteps` returns `(0, orig)` exactly when nothing is recoverable. -/
theorem fallback_iff (orig cur : GoErr)
    (h1 : asExitError orig = asExitError cur)
    (h2 : asMulti orig = asMulti cur)
    (h3 : unwrappedExitStatusNilErr orig = false) :
    (tailSteps orig cur = (0, some orig) ↔ recoverable orig = false) := by
  rw [tailSteps_eq]
  cases hx : asExitError cur with
  | some s =>
    apply iff_of_false
    · simp
    · simp [recoverable, h3, h1, hx]
  | none =>
    cases hm : asMulti cur with
    | some es =>
      cases hme : multiExit es with
      | some c =>
        apply iff_of_false
        · dsimp only
          rw [hme]
          simp
        · have hany : anyMemberRecovered es = true := by
            cases ha : anyMemberRecovered es
            · exact absurd ((multiExit_none_iff es).mpr ha) (by simp [hme])
            · rfl
          simp [recoverable, h3, h1, hx, h2, hm, hany]
      | none =>
        apply iff_of_true
        · dsimp only
          rw [hme]
        · simp [recoverable, h3, h1, hx, h2, hm, (multiExit_none_iff es).mp hme]
    | none =>
      apply iff_of_true
      · rfl
      · simp [recoverable, h3, h1, hx, h2, hm]

/-- On a multierror that is not the single-member `ProcessExecutionError`
shape, step 1 does not fire and `GetExitCode` runs only steps 2-3. -/
theorem GetExitCode_multi_eq (es : List GoErr) (h : ∀ p, es ≠ [.procExec p]) :
    GetExitCode (.multi es) = tailSteps (.multi es) (.multi es) := by
  cases es with
  | nil => rfl
  | cons e₁ rest =>
    cases rest with
    | nil =>
      cases e₁ with
      | procExec p => exact absurd rfl (h p)
      | basic n => rfl
      | exitErr s => rfl
      | multi es₂ => rfl
      | wrap e₂ => rfl
    | cons e₂ rest₂ =>
      cases e₁ with
      | procExec p => rfl
      | basic n => rfl
      | exitErr s => rfl
      | multi es₂ => rfl
      | wrap e₂ => rfl

/-- The step-1 predicate is false on every multierror that is not the
single-member `ProcessExecutionError` shape. -/
theorem unwrappedExitStatusNilErr_multi (es : List GoErr)
    (h : ∀ p, es ≠ [.procExec p]) :
    unwrappedExitStatusNilErr (.multi es) = false := by
  cases es with
  | nil => rfl
  | cons e₁ rest =>
    cases rest with
    | nil =>
      cases e₁ with
      | procExec p => exact absurd rfl (h p)
      | basic n => rfl
      | exitErr s => rfl
      | multi es₂ => rfl
      | wrap e₂ => rfl
    | cons e₂ rest₂ =>
      cases e₁ with
      | procExec p => rfl
      | basic n => rfl
      | exitErr s => rfl
      | multi es₂ => rfl
      | wrap e₂ => rfl

/-- C10 counterexample: take the internal wrapper around a
`ProcessExecutionError` whose embedded error carries no exit status.  No exit
status is recoverable, yet `GetExitCode` returns the *embedded* error (the
verbatim result of the unwrapped `ExitStatus()` call) rather than the
unmodified input error, so the claimed equivalence fails at this input. -/
theorem getExitCode_returns_inner_error :
    ¬ (GetExitCode (.wrap (.procExec (.basic 0)))
          = (0, some (.wrap (.procExec (.basic 0))))
        ↔ recoverable (.wrap (.procExec (.basic 0))) = false) := by
  intro hIff
  have hL : GetExitCode (.wrap (.procExec (.basic 0)))
      = (0, some (.wrap (.procExec (.basic 0)))) := hIff.mpr rfl
  rw [show GetExitCode (.wrap (.procExec (.basic 0))) = (0, some (.basic 0)) from rfl] at hL
  injection hL with h1 h2
  injection h2 with h3
  exact GoErr.noConfusion h3

/-- C10 (amended): for every error whose direct unwrap is *not* a
`ProcessExecutionError` — i.e. neither the internal wrapper directly around
one nor a single-member multierror whose sole member is one; on those two
shapes `GetExitCode` returns the `ExitStatus()` result verbatim, whose error
is the embedded error rather than the input (see the counterexample) —
`GetExitCode` returns `(0, err)` with the original error exactly when no
exit status is recoverable: not by an unwrapped `ExitStatus()`
implementation, not by an `exec.ExitError` found by `As`, and not by any
multierror member. -/
theorem getExitCode_fallback_characterization (e : GoErr)
    (h : ∀ p, e ≠ .wrap (.procExec p))
    (h2 : ∀ p, e ≠ .multi [.procExec p]) :
    (GetExitCode e = (0, some e) ↔ recoverable e = false) := by
  cases e with
  | basic n => exact fallback_iff (.basic n) (.basic n) rfl rfl rfl
  | procExec p => exact fallback_iff (.procExec p) (.procExec p) rfl rfl rfl
  | exitErr s => exact fallback_iff (.exitErr s) (.exitErr s) rfl rfl rfl
  | multi es =>
    have hes : ∀ p, es ≠ [.procExec p] := fun p hp => h2 p (by rw [hp])
    rw [GetExitCode_multi_eq es hes]
    exact fallback_iff (.multi es) (.multi es) rfl rfl
      (unwrappedExitStatusNilErr_multi es hes)
  | wrap e' =>
    cases e' with
    | procExec p => exact absurd rfl (h p)
    | basic n => exact fallback_iff (.wrap (.basic n)) (.basic n) rfl rfl rfl
    | exitErr s => exact fallback_iff (.wrap (.exitErr s)) (.exitErr s) rfl rfl rfl
    | multi es => exact fallback_iff (.wrap (.multi es)) (.multi es) rfl rfl rfl
    | wrap e₂ => exact fallback_iff (.wrap (.wrap e₂)) (.wrap e₂) rfl rfl rfl

/-- C10 witness: a plain error with nothing recoverable comes back unchanged
with exit code 0. -/
theorem getExitCode_fallback_characterization_witness :
    GetExitCode (.basic 0) = (0, some (.basic 0)) ↔ recoverable (.basic 0) = false :=
  getExitCode_fallback_characterization (.basic 0)
    (fun _ hp => GoErr.noConfusion hp) (fun _ hp => GoErr.noConfusion hp)

/-- C2 witness: the spec scenario `[{name a, default ""}, {name b, default
"5"}]` classifies to `required = [a]`, `optional = [b]`. -/
theorem parseVariables_partition_witness :
    parseVariables (.ok
      [{ name := "a", description := "", typeName := "string",
         defaultValue := "", defaultValuePlaceholder := "" },
       { name := "b", description := "", typeName := "number",
         defaultValue := "5", defaultValuePlaceholder := "" }])
      = .ok
        ([{ name := "a", description := "", typeName := "string",
            defaultValue := "", defaultValuePlaceholder := "" }],
         [{ name := "b", description := "", typeName := "number",
            defaultValue := "5", defaultValuePlaceholder := "" }]) := by
  obtain ⟨r, o, h1, h2, h3, _, _, _, _⟩ := parseVariables_partition
    [{ name := "a", description := "", typeName := "string",
       defaultValue := "", defaultValuePlaceholder := "" },
     { name := "b", description := "", typeName := "number",
       defaultValue := "5", defaultValuePlaceholder := "" }]
  rw [h1, h2, h3]
  rfl

/-- Step 1 through a single-member multierror (go-multierror `Unwrap` returns
the lone member itself): the unwrapped `ProcessExecutionError`'s
`ExitStatus()` result is returned verbatim — the embedded error when nothing
is recoverable, the embedded exit code otherwise; the member loop of step 3
inherits the same behaviour. -/
theorem getExitCode_single_member_multierror :
    GetExitCode (.multi [.procExec (.basic 0)]) = (0, some (.basic 0))
    ∧ GetExitCode (.multi [.procExec (.exitErr 3)]) = (3, none)
    ∧ GetExitCode (.multi [.basic 1, .multi [.procExec (.exitErr 3)]]) = (3, none) :=
  ⟨rfl, rfl, rfl⟩
